import Mathlib

/-!
Shallow embedding of the graphql-enum repository (Go) in Lean 4.

The embedding covers:
* `schema`   — the canonical data model of internal/schema/types.go and the
  entry-point extraction, plus a spec-modelled GitHub-format loader (the
  `schema.Load` implementation itself is not part of the sources).
* `github`   — the decoded GitHub-style schema document model.
* `traverser` — the sequential DFS enumerator (internal/traverser/sequential.go)
  and the bounded-parallel enumerator (internal/traverser/parallel.go).
* `generator` — the example-query generator (internal/generator/query.go).
* `legacy`   — the standalone CLI variant bundled with the repository
  (format detection, the GitHub mutation converter, exit-code logic).

Conventions: Go slices become `List`, Go `map[string]bool` visited sets become
`List String` with membership, Go `map[string]*T` becomes an association list
with `List.lookup`, and Go string helpers are mapped to their Lean
counterparts.  General recursion is made structural with an explicit fuel
argument; the enumerators' own `depth >= maxDepth` guard is kept verbatim and
the fuel is an upper bound on the remaining recursion (see the fuel-stability
theorem for claim C3).  Go `append` on slices is modelled with value
semantics (`++`).
-/

namespace GraphQLEnum

namespace schema

/-- Arg represents a GraphQL argument (internal/schema/types.go).
`type` holds the declared type string; `Required` mirrors the JSON field. -/
structure Arg where
  Name : String
  type : String
  Required : Bool
  DefaultValue : Option String
deriving DecidableEq, Repr

/-- Field represents a GraphQL field (internal/schema/types.go). -/
structure Field where
  Name : String
  type : String
  Args : List Arg
deriving DecidableEq, Repr

/-- Type represents a GraphQL type (internal/schema/types.go); named `Type'`
because `Type` is reserved in Lean. -/
structure Type' where
  Name : String
  Kind : String
  Fields : List Field
deriving DecidableEq, Repr

/-- EntryPoint represents a Query or Mutation entry point. -/
structure EntryPoint where
  Name : String
  type : String
  Args : List Arg
deriving DecidableEq, Repr

/-- PathSegment represents a segment in a path. -/
structure PathSegment where
  Name : String
  type : String
  Args : List Arg
deriving DecidableEq, Repr

/-- GraphQLPath represents a complete path from entry to target. -/
structure GraphQLPath where
  Segments : List PathSegment
  Depth : Nat
deriving DecidableEq, Repr

/-- Schema holds the GraphQL schema.  The Go `map[string]*Type` is modelled
as an association list with name-keyed lookup. -/
structure Schema where
  Types : List (String × Type')
  QueryType : String
  MutationType : String
deriving DecidableEq, Repr

/-- GetType retrieves a type by name (nil pointer becomes `none`). -/
def Schema.GetType (s : Schema) (name : String) : Option Type' :=
  s.Types.lookup name

/-- TypeExists checks if a type exists. -/
def Schema.TypeExists (s : Schema) (name : String) : Bool :=
  (s.GetType name).isSome

/-- GetEntryPoints returns Query and optionally Mutation entry points
(internal/schema/types.go). -/
def Schema.GetEntryPoints (s : Schema) (includeMutations : Bool) :
    List EntryPoint :=
  (match s.GetType s.QueryType with
   | some query => query.Fields.map fun f => ⟨f.Name, f.type, f.Args⟩
   | none => []) ++
  (if includeMutations then
    match s.GetType s.MutationType with
    | some mutation => mutation.Fields.map fun f => ⟨f.Name, f.type, f.Args⟩
    | none => []
  else [])

end schema

namespace traverser

open schema

/-- The sequential enumerator (internal/traverser/sequential.go). -/
structure Sequential where
  schema : Schema
  maxDepth : Nat
deriving Repr

/-- Body of `Sequential.dfs`: the Go recursion is made structural on an
explicit `fuel` argument; the source's own `depth >= s.maxDepth` guard is
kept, so any `fuel ≥ maxDepth - depth` yields the Go behaviour (the
stability theorem for claim C3 proves the result does not depend on the
fuel once it covers that bound).

This definition models `append(currentPath, newSegment)` with value
semantics (`++`), i.e. the INTENDED snapshot behaviour.  The real
sequential.go `append` reuses spare backing-array capacity, so a later
sibling's append can overwrite the final segment of an already-recorded
path; that aliasing behaviour is modelled separately and faithfully by
`Sequential.dfsGo` below.  The value-semantics model is used only for
properties the aliasing cannot disturb: segment counts and Depth fields
(C2), the fuel/termination bound (C3), the root self-match (C8, whose
cap-1 root array is never reused), and type distinctness (C10, where an
overwriting sibling segment has itself passed the visited check). -/
def Sequential.dfs (s : Sequential) (targetType : String) :
    Nat → String → List PathSegment → List String → Nat → List GraphQLPath
  | 0, _, _, _, _ => []
  | fuel + 1, currentType, currentPath, visited, depth =>
    if s.maxDepth ≤ depth then []
    else
      match s.schema.GetType currentType with
      | none => []
      | some typ =>
        typ.Fields.flatMap fun field =>
          if visited.contains field.type then []
          else
            let newPath := currentPath ++ [⟨field.Name, field.type, field.Args⟩]
            if field.type = targetType then
              [⟨newPath, depth + 1⟩]
            else
              Sequential.dfs s targetType fuel field.type newPath
                (field.type :: visited) (depth + 1)

/-- `FindPaths` with the fuel made explicit (used by the claim C3 theorem). -/
def Sequential.FindPathsFuel (s : Sequential) (fuel : Nat)
    (entryPoints : List EntryPoint) (targetType : String) :
    List GraphQLPath :=
  entryPoints.flatMap fun ep =>
    (if ep.type = targetType then
      [⟨[⟨ep.Name, ep.type, ep.Args⟩], 1⟩]
    else []) ++
    s.dfs targetType fuel ep.type [⟨ep.Name, ep.type, ep.Args⟩] [ep.type] 1

/-- FindPaths of the sequential enumerator (internal/traverser/sequential.go);
`maxDepth` fuel always suffices since the recursion starts at depth 1. -/
def Sequential.FindPaths (s : Sequential) (entryPoints : List EntryPoint)
    (targetType : String) : List GraphQLPath :=
  s.FindPathsFuel s.maxDepth entryPoints targetType

/-- The parallel enumerator (internal/traverser/parallel.go). -/
structure Parallel where
  schema : Schema
  maxDepth : Nat
  workers : Int
deriving Repr

/-- NewParallel defaults a non-positive worker count to 4
(internal/traverser/parallel.go). -/
def NewParallel (s : Schema) (maxDepth : Nat) (workers : Int) : Parallel :=
  if workers ≤ 0 then ⟨s, maxDepth, 4⟩ else ⟨s, maxDepth, workers⟩

/-- One frontier unit of the parallel enumerator's work queue. -/
structure job where
  currentType : String
  path : List PathSegment
  visited : List String
  depth : Nat
deriving Repr

/-- processJob of the parallel enumerator (internal/traverser/parallel.go):
same termination/recording rules as the sequential dfs, except that the
in-process recursion only continues while `j.depth < 5` (the fixed inner
fan-out threshold).  Fuel is the same embedding artifact as in
`Sequential.dfs`. -/
def Parallel.processJob (p : Parallel) (targetType : String) :
    Nat → job → List GraphQLPath
  | 0, _ => []
  | fuel + 1, j =>
    if p.maxDepth ≤ j.depth then []
    else
      match p.schema.GetType j.currentType with
      | none => []
      | some typ =>
        typ.Fields.flatMap fun field =>
          if j.visited.contains field.type then []
          else
            let newPath := j.path ++ [⟨field.Name, field.type, field.Args⟩]
            if field.type = targetType then
              [⟨newPath, j.depth + 1⟩]
            else if j.depth < 5 then
              Parallel.processJob p targetType fuel
                ⟨field.type, newPath, field.type :: j.visited, j.depth + 1⟩
            else []

/-- FindPaths of the parallel enumerator (internal/traverser/parallel.go).
The Go code seeds one job per entry point (recording root matches while
seeding) and lets a pool of workers drain the queue, collecting each job's
results under a mutex.  Each job's result list is a pure function of the
job (processJob copies the path before every append), so worker scheduling
only permutes the per-job blocks in the shared collection; the embedding
fixes the seed order, which is membership-equivalent to every schedule.
The worker count does not influence which paths are produced.

Caveat this model assumes away: the seed loop appends root matches to the
shared `paths` slice (parallel.go:63) WITHOUT holding `pathsMutex`, racing
with the workers' locked appends — under the Go memory model a racy
append can lose entries.  The model here is the race-free collection in
which no append is lost; the race is part of the claim C1 code-bug
record. -/
def Parallel.FindPaths (p : Parallel) (entryPoints : List EntryPoint)
    (targetType : String) : List GraphQLPath :=
  (entryPoints.flatMap fun ep =>
    if ep.type = targetType then
      [⟨[⟨ep.Name, ep.type, ep.Args⟩], 1⟩]
    else []) ++
  entryPoints.flatMap fun ep =>
    p.processJob targetType p.maxDepth
      ⟨ep.type, [⟨ep.Name, ep.type, ep.Args⟩], [ep.type], 1⟩

/-! #### Capacity-aware model of sequential.go's slice handling

`Sequential.dfs` above models `append` with value semantics.  The real
sequential.go:64 `newPath := append(currentPath, newSegment)` follows Go
slice semantics: when the backing array has spare capacity the append
writes in place and the result shares the array, so a later sibling's
append mutates the final segment of a path recorded earlier at the same
node.  The definitions below model this faithfully: slices are
(array id, length) references into a store of backing arrays with
capacities, a slice literal has capacity equal to its length, and an
append either writes the next slot in place (`len < cap`) or allocates a
fresh array with doubled capacity (Go's growth rule for small slices).
Recorded paths keep their slice reference and are materialized against
the final store, exactly as the Go caller reads the result slice after
FindPaths returns. -/

/-- One backing array of the slice store: the filled slots and the
capacity. -/
structure Backing where
  contents : List PathSegment
  cap : Nat
deriving DecidableEq, Repr

/-- A Go slice header: backing-array id and length (the capacity lives
with the array). -/
structure SliceRef where
  arr : Nat
  len : Nat
deriving DecidableEq, Repr

/-- The store of backing arrays; ids are list positions. -/
abbrev SliceStore : Type := List Backing

/-- Read a backing array (out-of-range reads never occur in reachable
states). -/
def storeGet (st : SliceStore) (i : Nat) : Backing :=
  List.getD st i ⟨[], 0⟩

/-- Write slot `k` of a backing array (`k` never exceeds the filled extent
in reachable states). -/
def writeSlot (b : Backing) (k : Nat) (seg : PathSegment) : Backing :=
  if k < b.contents.length then ⟨b.contents.set k seg, b.cap⟩
  else ⟨b.contents ++ [seg], b.cap⟩

/-- Go's `append(sl, seg)` on the slice store: reuse the backing array in
place when capacity remains, otherwise allocate a fresh array with
doubled capacity (the Go runtime's growth for small slices), copying the
first `len` slots. -/
def goAppend (st : SliceStore) (sl : SliceRef) (seg : PathSegment) :
    SliceStore × SliceRef :=
  let b := storeGet st sl.arr
  if sl.len < b.cap then
    (List.set st sl.arr (writeSlot b sl.len seg), ⟨sl.arr, sl.len + 1⟩)
  else
    (st ++ [⟨b.contents.take sl.len ++ [seg],
      if b.cap = 0 then 1 else 2 * b.cap⟩],
     ⟨List.length st, sl.len + 1⟩)

/-- Materialize a slice reference against a store. -/
def readSlice (st : SliceStore) (sl : SliceRef) : List PathSegment :=
  (storeGet st sl.arr).contents.take sl.len

/-- sequential.go's dfs with faithful slice semantics: identical control
flow to `Sequential.dfs`, but `currentPath` is a slice reference, appends
go through `goAppend`, and recording keeps the (still mutable) slice
reference together with the Depth, threading the store and the result
list exactly as the Go `*paths` out-parameter does. -/
def Sequential.dfsGo (s : Sequential) (targetType : String) :
    Nat → String → SliceRef → List String → Nat →
    SliceStore × List (SliceRef × Nat) → SliceStore × List (SliceRef × Nat)
  | 0, _, _, _, _, acc => acc
  | fuel + 1, currentType, currentPath, visited, depth, acc =>
    if s.maxDepth ≤ depth then acc
    else
      match s.schema.GetType currentType with
      | none => acc
      | some typ =>
        typ.Fields.foldl
          (fun acc field =>
            if visited.contains field.type then acc
            else
              let stPath := goAppend acc.1 currentPath
                ⟨field.Name, field.type, field.Args⟩
              if field.type = targetType then
                (stPath.1, acc.2 ++ [(stPath.2, depth + 1)])
              else
                Sequential.dfsGo s targetType fuel field.type stPath.2
                  (field.type :: visited) (depth + 1) (stPath.1, acc.2))
          acc

/-- sequential.go's FindPaths with faithful slice semantics: each entry
point allocates its literal root path (length 1, capacity 1), root
matches record that slice, dfs runs, and the recorded slice references
are materialized against the final store — as the Go caller observes the
returned paths only after the search has finished mutating the backing
arrays. -/
def Sequential.FindPathsGo (s : Sequential) (entryPoints : List EntryPoint)
    (targetType : String) : List GraphQLPath :=
  let run :=
    entryPoints.foldl
      (fun (acc : SliceStore × List (SliceRef × Nat)) ep =>
        let st := acc.1 ++ [⟨[⟨ep.Name, ep.type, ep.Args⟩], 1⟩]
        let path : SliceRef := ⟨List.length acc.1, 1⟩
        let res :=
          if ep.type = targetType then acc.2 ++ [(path, 1)] else acc.2
        Sequential.dfsGo s targetType s.maxDepth ep.type path [ep.type] 1
          (st, res))
      ([], [])
  run.2.map fun r => ⟨readSlice run.1 r.1, r.2⟩

end traverser

/-- Go's strings.HasSuffix, computed on the character data. -/
def strEndsWith (s suffix : String) : Bool :=
  suffix.toList.isSuffixOf s.toList

/-- Go's strings.HasPrefix, computed on the character data. -/
def strStartsWith (s pre : String) : Bool :=
  pre.toList.isPrefixOf s.toList

/-- Go's strings.ReplaceAll with a single-character pattern and an empty
replacement: every occurrence of the character is removed. -/
def stripChar (c : Char) (s : String) : String :=
  String.mk (s.toList.filter fun x => x ≠ c)

namespace github

/-- A decoded GitHub-style schema argument (`args`/`arguments` entries);
`type` is the decorated type string, e.g. `"[Repository!]!"`.  Metadata
fields (id, href, description, defaultValue) are carried by the Go structs
but never consulted by the embedded functions and are omitted. -/
structure Arg where
  Name : String
  type : String
deriving DecidableEq, Repr

/-- A decoded field of a GitHub-style object/interface (uses `arguments`). -/
structure Field where
  Name : String
  type : String
  Arguments : List Arg
deriving DecidableEq, Repr

/-- A decoded GitHub-style object/interface/inputObject definition. -/
structure TypeDef where
  Name : String
  Kind : String
  Fields : List Field
  Implements : List String
deriving DecidableEq, Repr

/-- A decoded entry of a GitHub-style mutation's `returnFields` list. -/
structure ReturnField where
  Name : String
  type : String
  Kind : String
deriving DecidableEq, Repr

/-- A decoded entry of a GitHub-style mutation's `inputFields` list.  The Go
decoder reuses its top-level field-definition struct here, but only the
name and type of an input field are ever read. -/
structure InputField where
  Name : String
  type : String
deriving DecidableEq, Repr

/-- A decoded GitHub-style top-level query or mutation definition. -/
structure FieldDef where
  Name : String
  type : String
  Kind : String
  Args : List Arg
  InputFields : List InputField
  ReturnFields : List ReturnField
deriving DecidableEq, Repr

/-- A decoded GitHub-style union definition. -/
structure Union' where
  Name : String
  PossibleTypes : List String
deriving DecidableEq, Repr

/-- A decoded GitHub-style enum definition (only the name is consulted). -/
structure Enum' where
  Name : String
deriving DecidableEq, Repr

/-- A decoded GitHub-style scalar definition (only the name is consulted). -/
structure Scalar' where
  Name : String
deriving DecidableEq, Repr

/-- A decoded GitHub-style schema document. -/
structure Format where
  Queries : List FieldDef
  Mutations : List FieldDef
  Objects : List TypeDef
  Interfaces : List TypeDef
  Unions : List Union'
  Enums : List Enum'
  Scalars : List Scalar'
  InputObjects : List TypeDef
deriving DecidableEq, Repr

/-- cleanTypeName strips the GraphQL modifier characters `!`, `[`, `]`
(src/main.go; the part_000 variant adds a redundant empty-string early
return with identical behaviour). -/
def cleanTypeName (t : String) : String :=
  stripChar ']' (stripChar '[' (stripChar '!' t))

end github

namespace legacy

/-- isScalarType tests a GitHub-format kind tag for the scalar/enum
value-type kinds (src/unnamed/part_000). -/
def isScalarType (kind : String) : Bool :=
  kind = "scalars" || kind = "SCALAR" || kind = "enums" || kind = "ENUM"

/-- An edge of the legacy CLI's internal graph (src/unnamed/part_000 /
src/main.go); `Arguments` entries carry a name and a cleaned type string. -/
structure Edge where
  Name : String
  Target : String
  Arguments : List github.Arg
deriving DecidableEq, Repr

/-- convertGitHubMutation (src/unnamed/part_000): derive the edge's target
type from `returnFields` — first return field whose kind is not
scalar/enum; if that leaves the empty string, the first return field; if
the cleaned result is still empty, the mutation's own declared type.  The
Go loop-with-break is `List.find?`.  Both branches of the Go `inputFields`
loop append the same argument (the `input`-named branch re-uses the
input field's own name), so the loop is a plain map. -/
def convertGitHubMutation (m : github.FieldDef) : Edge :=
  let targetType0 :=
    match m.ReturnFields.find? (fun rf => !(isScalarType rf.Kind)) with
    | some rf => rf.type
    | none => ""
  let targetType1 :=
    match m.ReturnFields with
    | [] => targetType0
    | rf :: _ => if targetType0 = "" then rf.type else targetType0
  let targetType2 := github.cleanTypeName targetType1
  let targetType3 :=
    if targetType2 = "" then github.cleanTypeName m.type else targetType2
  { Name := m.Name
    Target := targetType3
    Arguments := m.InputFields.map fun f => ⟨f.Name, github.cleanTypeName f.type⟩ }

/-- The decoded shape of an introspection document, as far as format
detection consults it (src/unnamed/part_000): `Types` is `none` when the
JSON `types` entry is absent or null (a nil Go slice) and `some l` when an
array was present — possibly empty.  The nested `data.__schema` wrapping is
flattened; the per-type contents are not consulted by `parseSchema` and are
reduced to the kind/name pair. -/
structure IntrospectionDoc where
  QueryType : Option String
  MutationType : Option String
  SubscriptionType : Option String
  Types : Option (List (String × String))
deriving DecidableEq, Repr

/-- The outcome of `parseSchema`'s format detection. -/
inductive ParseResult where
  | introspection
  | githubFormat
  | unknownFormat
deriving DecidableEq, Repr

/-- parseSchema format detection (src/unnamed/part_000): json decoding of
the raw bytes is the boundary of the embedding, so the function takes the
outcome of the two decode attempts (`none` = decode error).  Introspection
wins when the decode succeeded and the types slice is non-nil; otherwise
the GitHub decode must have succeeded with a non-empty queries, objects or
mutations list; otherwise the format is unrecognized.  (The src/main.go
variant omits the mutations test from the GitHub criterion.) -/
def parseSchema (introRes : Option IntrospectionDoc)
    (ghRes : Option github.Format) : ParseResult :=
  match introRes with
  | some intro =>
    if intro.Types.isSome then ParseResult.introspection
    else
      match ghRes with
      | some gh =>
        if 0 < gh.Queries.length || 0 < gh.Objects.length
            || 0 < gh.Mutations.length then
          ParseResult.githubFormat
        else ParseResult.unknownFormat
      | none => ParseResult.unknownFormat
  | none =>
    match ghRes with
    | some gh =>
      if 0 < gh.Queries.length || 0 < gh.Objects.length
          || 0 < gh.Mutations.length then
        ParseResult.githubFormat
      else ParseResult.unknownFormat
    | none => ParseResult.unknownFormat

/-- Exit code of the current CLI (src/unnamed/part_000, `func main` of the
cmd entry point), as a function of the run's milestones: schema load
failure, missing target type and empty entry-point list all
`log.Fatal`/`os.Exit(1)`; an empty path list prints a warning and exits 0;
otherwise the run prints/exports and exits 0. -/
def mainExitCode (schemaLoadOk : Bool) (typeExists : Bool)
    (entryPointCount : Nat) (pathCount : Nat) : Nat :=
  if !schemaLoadOk then 1
  else if !typeExists then 1
  else if entryPointCount = 0 then 1
  else if pathCount = 0 then 0
  else 0

/-- Exit code of the legacy standalone CLI (src/main.go): parse failure and
missing target type exit 1; an empty path list exits 2; otherwise the
listing is printed and main returns (exit 0). -/
def legacyMainExitCode (parseOk : Bool) (typeExists : Bool)
    (pathCount : Nat) : Nat :=
  if !parseOk then 1
  else if !typeExists then 1
  else if pathCount = 0 then 2
  else 0

end legacy

namespace schema

/-- Modelled from the spec: the GitHub-format branch of the schema loader
(`schema.Load` of the internal/schema package), whose implementation is
not among the provided sources — only its data model (types.go) and its
callers are.  Per the spec's SchemaNormalizer contract: field target type
names are the decorated strings with `!`, `[`, `]` stripped; argument
`declaredType` strings keep the original decorated syntax and `required`
is derived from a trailing `!`; synthetic `Query` (and, when mutations are
requested, `Mutation`) root types collect the top-level queries/mutations;
a mutation's target is the first return field whose kind is not
scalar/enum, else the first return field, else the mutation's own declared
type, and its `inputFields` map one-for-one onto arguments.  The Go name
map is modelled as an association list. -/
def loadGitHub (gh : github.Format) (includeMutations : Bool) : Schema :=
  let convArg : github.Arg → Arg := fun a =>
    ⟨a.Name, a.type, strEndsWith a.type "!", none⟩
  let convField : github.Field → Field := fun f =>
    ⟨f.Name, github.cleanTypeName f.type, f.Arguments.map convArg⟩
  let mutTarget : github.FieldDef → String := fun m =>
    match m.ReturnFields.find? (fun rf => !(legacy.isScalarType rf.Kind)) with
    | some rf => github.cleanTypeName rf.type
    | none =>
      match m.ReturnFields with
      | rf :: _ => github.cleanTypeName rf.type
      | [] => github.cleanTypeName m.type
  let queryNode : Type' :=
    ⟨"Query", "OBJECT",
      gh.Queries.map fun q =>
        ⟨q.Name, github.cleanTypeName q.type, q.Args.map convArg⟩⟩
  let mutationNode : Type' :=
    ⟨"Mutation", "OBJECT",
      gh.Mutations.map fun m =>
        ⟨m.Name, mutTarget m,
          m.InputFields.map fun f => ⟨f.Name, f.type, strEndsWith f.type "!", none⟩⟩⟩
  { Types :=
      (gh.Objects.map fun o => (o.Name, ⟨o.Name, "OBJECT", o.Fields.map convField⟩)) ++
      (gh.Interfaces.map fun o => (o.Name, ⟨o.Name, "INTERFACE", o.Fields.map convField⟩)) ++
      (gh.Unions.map fun u => (u.Name, ⟨u.Name, "UNION", []⟩)) ++
      (gh.Enums.map fun e => (e.Name, ⟨e.Name, "ENUM", []⟩)) ++
      (gh.Scalars.map fun sc => (sc.Name, ⟨sc.Name, "SCALAR", []⟩)) ++
      [("Query", queryNode)] ++
      (if includeMutations && !gh.Mutations.isEmpty then
        [("Mutation", mutationNode)]
      else [])
    QueryType := "Query"
    MutationType := "Mutation" }

end schema

namespace generator

open schema

/-- The query generator (internal/generator/query.go); the output directory
only matters for file I/O and is omitted. -/
structure Generator where
  schema : Schema
deriving Repr

/-- A Go `interface{}` example value produced by `generateExampleValue`:
`"example_string"`, `42`, `3.14`, `"123"`, `true`, an empty list or nil.
The `float` constructor carries no payload — the 3.14 literal is never
inspected by anything embedded here and floating point is not modelled. -/
inductive Value where
  | str (s : String)
  | int (n : Int)
  | float
  | bool (b : Bool)
  | emptyList
  | null
deriving DecidableEq, Repr

/-- A generated example query (internal/generator/query.go).  `Variables`
models the Go `map[string]interface{}`: entries are prepended so that
`List.lookup` (first match) realizes the map's last-write-wins updates. -/
structure GeneratedQuery where
  Index : Nat
  Description : String
  Path : String
  Query : String
  Variables : List (String × Value)
  FileName : String
deriving DecidableEq, Repr

/-- Substring containment on character lists (an empty needle is contained
everywhere, as for Go's strings.Contains). -/
def hasSub (needle : List Char) : List Char → Bool
  | [] => needle.isEmpty
  | c :: rest => needle.isPrefixOf (c :: rest) || hasSub needle rest

/-- Go's strings.Contains. -/
def stringsContains (s substr : String) : Bool :=
  hasSub substr.toList s.toList

/-- generateExampleValue: example value synthesis by substring match on the
declared type name (internal/generator/query.go). -/
def Generator.generateExampleValue (_g : Generator) (typeName : String) : Value :=
  if stringsContains typeName "String" then .str "example_string"
  else if stringsContains typeName "Int" then .int 42
  else if stringsContains typeName "Float" then .float
  else if stringsContains typeName "ID" then .str "123"
  else if stringsContains typeName "Boolean" then .bool true
  else if strStartsWith typeName "[" then .emptyList
  else .null

/-- Go's strings.Trim restricted to the generator's `"[]!"` cutset: removes
leading and trailing characters drawn from the cutset. -/
def trimCutset (s : String) (cut : List Char) : String :=
  String.mk (((s.toList.dropWhile (· ∈ cut)).reverse.dropWhile (· ∈ cut)).reverse)

/-- getBaseTypeName removes GraphQL type modifiers like `!` and `[...]`
(internal/generator/query.go): trim one trailing `!`, then strip the
bracket wrapper when present. -/
def Generator.getBaseTypeName (_g : Generator) (typeName : String) : String :=
  let result := if strEndsWith typeName "!" then typeName.dropRight 1 else typeName
  if strStartsWith result "[" && strEndsWith result "]" then
    trimCutset result ['[', ']', '!']
  else result

/-- isConnectionType: the base type name ends in `Connection`. -/
def Generator.isConnectionType (g : Generator) (typeName : String) : Bool :=
  strEndsWith (g.getBaseTypeName typeName) "Connection"

/-- The field scan inside getNodeType: find an `edges` field whose type has
a `node` field, returning that node type's base name
(internal/generator/query.go). -/
def Generator.nodeFromFields (g : Generator) : List Field → String
  | [] => ""
  | f :: rest =>
    if f.Name = "edges" then
      match g.schema.GetType (g.getBaseTypeName f.type) with
      | some edgeTyp =>
        match edgeTyp.Fields.find? (fun ef => ef.Name = "node") with
        | some ef => g.getBaseTypeName ef.type
        | none => g.nodeFromFields rest
      | none => g.nodeFromFields rest
    else g.nodeFromFields rest

/-- getNodeType: extract the node type reached through a connection type's
`edges`/`node` chain, or `""` (internal/generator/query.go). -/
def Generator.getNodeType (g : Generator) (connectionType : String) : String :=
  match g.schema.GetType (g.getBaseTypeName connectionType) with
  | some connType => g.nodeFromFields connType.Fields
  | none => ""

/-- The inner loop of the connection expansion: up to 2 argument-less
fields of the node type, skipping `__typename`. -/
def nodeFieldLoop (indent : String) : List Field → Nat → String
  | [], _ => ""
  | nf :: rest, fieldCount =>
    if nf.Args.isEmpty && nf.Name ≠ "__typename" then
      let s := "\n" ++ indent ++ "  " ++ nf.Name
      if 2 ≤ fieldCount + 1 then s
      else s ++ nodeFieldLoop indent rest (fieldCount + 1)
    else nodeFieldLoop indent rest fieldCount

/-- The field loop of addLeafFields: up to 3 fields of the terminal type,
skipping direct self-references, expanding connection-typed fields one
level (internal/generator/query.go). -/
def Generator.leafFieldLoop (g : Generator) (indent typeName : String) :
    List Field → Nat → String
  | [], _ => ""
  | f :: rest, count =>
    if f.type = typeName then g.leafFieldLoop indent typeName rest count
    else
      let conn :=
        if g.isConnectionType f.type then
          " \x7b" ++ "\n" ++ indent ++ "  __typename" ++
          (let nodeType := g.getNodeType f.type
           if nodeType ≠ "" then
             match g.schema.GetType nodeType with
             | some nodeTyp => nodeFieldLoop indent nodeTyp.Fields 0
             | none => ""
           else "") ++
          "\n" ++ indent ++ "\x7d"
        else ""
      let s := "\n" ++ indent ++ f.Name ++ conn
      if 3 ≤ count + 1 then s
      else s ++ g.leafFieldLoop indent typeName rest (count + 1)

/-- addLeafFields: `__typename` plus up to 3 of the terminal type's own
fields (internal/generator/query.go); returns the text the Go version
appends to the builder. -/
def Generator.addLeafFields (g : Generator) (indent typeName : String) : String :=
  indent ++ "__typename" ++
  match g.schema.GetType typeName with
  | none => ""
  | some typ => g.leafFieldLoop indent typeName typ.Fields 0

/-- The variable-collection loop of generateOne: one variable per argument
along the path, named `<fieldName>_<argName>`; required arguments also
contribute a variable declaration (internal/generator/query.go). -/
def Generator.collectVars (g : Generator) (segs : List PathSegment) :
    List (String × Value) × List String :=
  segs.foldl
    (fun acc seg =>
      seg.Args.foldl
        (fun (acc : List (String × Value) × List String) arg =>
          let varName := seg.Name ++ "_" ++ arg.Name
          ((varName, g.generateExampleValue arg.type) :: acc.1,
           acc.2 ++ (if arg.Required then ["$" ++ varName ++ ": " ++ arg.type] else [])))
        acc)
    ([], [])

/-- One segment line of the query body: the field name with its argument
list rendered as variable references (internal/generator/query.go). -/
def segmentText (seg : PathSegment) (indent : String) : String :=
  indent ++ seg.Name ++
  (if seg.Args.isEmpty then ""
   else
     "(" ++
     String.intercalate ", "
       (seg.Args.map fun arg => arg.Name ++ ": $" ++ (seg.Name ++ "_" ++ arg.Name)) ++
     ")")

/-- The body loop of generateOne: every segment opens a selection block two
spaces deeper; the last segment receives the leaf fields
(internal/generator/query.go). -/
def Generator.bodyAux (g : Generator) : List PathSegment → String → String
  | [], _ => ""
  | [seg], indent =>
    segmentText seg indent ++ " \x7b\n" ++
    g.addLeafFields (indent ++ "  ") seg.type ++ "\n" ++ indent ++ "\x7d"
  | seg :: rest, indent =>
    segmentText seg indent ++ " \x7b\n" ++ g.bodyAux rest (indent ++ "  ")

/-- The closing-brace loop of generateOne: `k` closings, the first indented
`k` levels, down to one (internal/generator/query.go). -/
def closeBraces : Nat → String
  | 0 => ""
  | k + 1 => "\n" ++ String.join (List.replicate (k + 1) "  ") ++ "\x7d" ++ closeBraces k

/-- The `query_%03d.graphql` file name (zero-padded to three digits). -/
def queryFileName (index : Nat) : String :=
  "query_" ++
  (if index < 10 then "00" else if index < 100 then "0" else "") ++
  toString index ++ ".graphql"

/-- formatPath of the generator: segment names joined with arrows. -/
def Generator.formatPath (_g : Generator) (path : GraphQLPath) : String :=
  String.intercalate " → " (path.Segments.map fun seg => seg.Name)

/-- generateOne (internal/generator/query.go): build the query text, the
variable map and the metadata for one path. -/
def Generator.generateOne (g : Generator) (path : GraphQLPath) (index : Nat) :
    GeneratedQuery :=
  let vd := g.collectVars path.Segments
  let pathStr := g.formatPath path
  { Index := index
    Description := "Path " ++ toString index ++ ": " ++ pathStr
    Path := pathStr
    Query :=
      "query" ++
      (if vd.2.isEmpty then "" else "(" ++ String.intercalate ", " vd.2 ++ ")") ++
      " \x7b\n" ++
      g.bodyAux path.Segments "  " ++
      closeBraces (path.Segments.length - 1) ++
      "\n\x7d"
    Variables := vd.1
    FileName := queryFileName index }

/-- GenerateAll: one generated query per path, indexed from 1. -/
def Generator.GenerateAll (g : Generator) (paths : List GraphQLPath) :
    List GeneratedQuery :=
  paths.enum.map fun ip => g.generateOne ip.2 (ip.1 + 1)

end generator

end GraphQLEnum

open GraphQLEnum

/-! ### Claim-side policy definitions and concrete instances

The `claim…` definitions below transcribe a claim's wording (not the
source); the `amended…` definitions transcribe the corrected wording.
The remaining definitions are concrete inputs used by counterexamples and
witnesses. -/

/-- The mutation target-type selection policy exactly as the claim states
it: the type of the first return field whose kind is not scalar/enum; if
no return field qualifies, the first return field's type; if the
returnFields list is empty, the mutation's own declared type (all read as
bare names, with modifiers stripped). -/
def claimMutationTarget (m : github.FieldDef) : String :=
  match m.ReturnFields.find? (fun rf => !(legacy.isScalarType rf.Kind)) with
  | some rf => github.cleanTypeName rf.type
  | none =>
    match m.ReturnFields with
    | rf :: _ => github.cleanTypeName rf.type
    | [] => github.cleanTypeName m.type

/-- The amended mutation target-type selection policy: scan `returnFields`
in order and select the type of the first field whose kind is not
scalar/enum; if no field qualifies or the selected type string is empty,
the first return field's type is used instead; if the chosen string is
empty after stripping modifiers (in particular when `returnFields` is
empty), the mutation's own declared type is used. -/
def amendedMutationTarget (m : github.FieldDef) : String :=
  let selected :=
    match m.ReturnFields.find? (fun rf => !(legacy.isScalarType rf.Kind)) with
    | some rf => rf.type
    | none => ""
  let chosen :=
    match m.ReturnFields with
    | [] => selected
    | rf :: _ => if selected = "" then rf.type else selected
  if github.cleanTypeName chosen = "" then github.cleanTypeName m.type
  else github.cleanTypeName chosen

/-- A GitHub-format mutation whose first (and only) return field has a
non-scalar kind but an empty type string. -/
def mCex : github.FieldDef :=
  { Name := "doThing", type := "Own", Kind := "", Args := [], InputFields := []
    ReturnFields := [{ Name := "x", type := "", Kind := "objects" }] }

/-- Format detection exactly as the claim states it: Introspection exactly
when the introspection decode succeeded with a non-empty types list;
otherwise GitHub exactly when the GitHub decode succeeded with a non-empty
queries, objects or mutations list; otherwise a format-recognition
error. -/
def claimParseSchema (introRes : Option legacy.IntrospectionDoc)
    (ghRes : Option github.Format) : legacy.ParseResult :=
  if (match introRes with
      | some intro => !(intro.Types.getD []).isEmpty
      | none => false) then
    legacy.ParseResult.introspection
  else if (match ghRes with
      | some gh =>
        0 < gh.Queries.length || 0 < gh.Objects.length
          || 0 < gh.Mutations.length
      | none => false) then
    legacy.ParseResult.githubFormat
  else legacy.ParseResult.unknownFormat

/-- The amended format detection: Introspection exactly when the
introspection decode succeeded and the types list is present — non-null,
possibly empty; the GitHub and error cases are as the claim states
them. -/
def amendedParseSchema (introRes : Option legacy.IntrospectionDoc)
    (ghRes : Option github.Format) : legacy.ParseResult :=
  if (match introRes with
      | some intro => intro.Types.isSome
      | none => false) then
    legacy.ParseResult.introspection
  else if (match ghRes with
      | some gh =>
        0 < gh.Queries.length || 0 < gh.Objects.length
          || 0 < gh.Mutations.length
      | none => false) then
    legacy.ParseResult.githubFormat
  else legacy.ParseResult.unknownFormat

/-- A decoded introspection document whose types list is present but
empty — the decoded form of `{"data":{"__schema":{"types":[]}}}`. -/
def introCex : legacy.IntrospectionDoc :=
  { QueryType := none, MutationType := none, SubscriptionType := none
    Types := some [] }

/-- The GitHub-style document of the spec's worked example: one query
`repo` returning `Repository` with one argument `id : ID!`, and one empty
object `Repository`. -/
def ghDoc : github.Format :=
  { Queries := [{ Name := "repo", type := "Repository", Kind := ""
                  Args := [{ Name := "id", type := "ID!" }]
                  InputFields := [], ReturnFields := [] }]
    Mutations := []
    Objects := [{ Name := "Repository", Kind := "", Fields := [], Implements := [] }]
    Interfaces := [], Unions := [], Enums := [], Scalars := [], InputObjects := [] }

/-- The single-step path of the worked example (the sole member of the
enumeration proven in the C4 theorem). -/
def repoPath : schema.GraphQLPath :=
  ⟨[⟨"repo", "Repository", [⟨"id", "ID!", true, none⟩]⟩], 1⟩

/-- A two-node schema (`A --b--> B`) used by witnesses. -/
def wSchema : schema.Schema :=
  ⟨[("A", ⟨"A", "OBJECT", [⟨"b", "B", []⟩]⟩), ("B", ⟨"B", "OBJECT", []⟩)],
   "Q", "M"⟩

/-- A sequential enumerator over `wSchema` with maxDepth 3. -/
def wSeq : traverser.Sequential := ⟨wSchema, 3⟩

/-- Witness entry points: a field of type `A` and a field of type `B`. -/
def wEps : List schema.EntryPoint := [⟨"a", "A", []⟩, ⟨"t", "B", []⟩]

/-- The depth-2 path `a → b` recorded over `wSchema` for target `B`. -/
def wPath : schema.GraphQLPath := ⟨[⟨"a", "A", []⟩, ⟨"b", "B", []⟩], 2⟩

/-- A sequential enumerator with `maxDepth = 0` (the Go flag accepts it). -/
def cexSeq : traverser.Sequential := ⟨⟨[], "Q", "M"⟩, 0⟩

/-- A single entry point whose own type is the target. -/
def cexEps : List schema.EntryPoint := [⟨"a", "T", []⟩]

/-- The chain `A --b--> B --c--> C` where `C` has two fields `t1`, `t2` of
the target type `T`: at depth 3 the sequential enumerator's `currentPath`
slice has length 3 and capacity 4, so recording `t1`'s path and then
appending `t2` share backing-array slot 3. -/
def aliasSchema : schema.Schema :=
  ⟨[("A", ⟨"A", "OBJECT", [⟨"b", "B", []⟩]⟩),
    ("B", ⟨"B", "OBJECT", [⟨"c", "C", []⟩]⟩),
    ("C", ⟨"C", "OBJECT", [⟨"t1", "T", []⟩, ⟨"t2", "T", []⟩]⟩),
    ("T", ⟨"T", "OBJECT", []⟩)],
   "Q", "M"⟩

/-- The single entry point of the aliasing scenario. -/
def aliasEps : List schema.EntryPoint := [⟨"a", "A", []⟩]

/-- The path through `t1` that sequential.go loses to the slice
overwrite. -/
def lostPath : schema.GraphQLPath :=
  ⟨[⟨"a", "A", []⟩, ⟨"b", "B", []⟩, ⟨"c", "C", []⟩, ⟨"t1", "T", []⟩], 4⟩

/-- The corrupted record sequential.go returns twice in the aliasing
scenario: both recorded slices read `t2` from the shared slot. -/
def corruptedPath : schema.GraphQLPath :=
  ⟨[⟨"a", "A", []⟩, ⟨"b", "B", []⟩, ⟨"c", "C", []⟩, ⟨"t2", "T", []⟩], 4⟩

/-! ### Helper lemmas about the sequential enumerator -/

/-- The dfs guard: at `depth ≥ maxDepth` nothing is produced, whatever the
fuel. -/
theorem dfs_stop (s : traverser.Sequential) (tt : String) (fuel : Nat)
    (ct : String) (path : List schema.PathSegment) (visited : List String)
    (depth : Nat) (h : s.maxDepth ≤ depth) :
    s.dfs tt fuel ct path visited depth = [] := by
  cases fuel with
  | zero => rfl
  | succ f => simp [traverser.Sequential.dfs, h]

/-- The dfs result is independent of the fuel once the fuel covers
`maxDepth - depth`: the recursion always bottoms out within that bound. -/
theorem dfs_fuel_stable (s : traverser.Sequential) (tt : String) :
    ∀ (f₁ f₂ : Nat) (ct : String) (path : List schema.PathSegment)
      (visited : List String) (depth : Nat),
      s.maxDepth ≤ depth + f₁ → s.maxDepth ≤ depth + f₂ →
      s.dfs tt f₁ ct path visited depth = s.dfs tt f₂ ct path visited depth := by
  intro f₁
  induction f₁ with
  | zero =>
    intro f₂ ct path visited depth h₁ h₂
    rw [dfs_stop s tt 0 ct path visited depth (by omega),
      dfs_stop s tt f₂ ct path visited depth (by omega)]
  | succ f ih =>
    intro f₂ ct path visited depth h₁ h₂
    by_cases hd : s.maxDepth ≤ depth
    · rw [dfs_stop s tt _ ct path visited depth hd,
        dfs_stop s tt f₂ ct path visited depth hd]
    · cases f₂ with
      | zero => omega
      | succ f₂' =>
        simp only [traverser.Sequential.dfs, if_neg hd]
        cases hty : s.schema.GetType ct with
        | none => rfl
        | some typ =>
          refine List.flatMap_congr fun field hf => ?_
          by_cases hv : field.type ∈ visited
          · simp [hv]
          · by_cases htgt : field.type = tt
            · simp [hv, htgt]
            · simp only [hv, htgt, if_false, ite_false]
              simp [hv, htgt]
              exact ih f₂' field.type _ (field.type :: visited) (depth + 1)
                (by omega) (by omega)

/-! ### Claim theorems -/

/-- C3: for every finite Graph — cyclic or not — and every maxDepth, the
sequential enumerator's FindPaths terminates with recursion bounded by
maxDepth on any branch: granting the embedded recursion any fuel beyond
`maxDepth` never changes the result, i.e. the search always bottoms out
within the `maxDepth` budget that `FindPaths` hands it. -/
theorem c3_sequential_terminates_within_maxDepth :
    ∀ (s : traverser.Sequential) (entryPoints : List schema.EntryPoint)
      (targetType : String) (extra : Nat),
      s.FindPathsFuel (s.maxDepth + extra) entryPoints targetType =
        s.FindPaths entryPoints targetType := by
  intro s eps tt extra
  unfold traverser.Sequential.FindPaths traverser.Sequential.FindPathsFuel
  refine List.flatMap_congr fun ep hep => ?_
  congr 1
  exact dfs_fuel_stable s tt _ _ ep.type _ [ep.type] 1 (by omega) (by omega)

/-- C8: every entry point whose own type equals the requested target
contributes a one-step Path consisting solely of that root step, with
depth 1. -/
theorem c8_root_match_one_step_path :
    ∀ (s : traverser.Sequential) (entryPoints : List schema.EntryPoint)
      (targetType : String) (ep : schema.EntryPoint),
      ep ∈ entryPoints → ep.type = targetType →
      (⟨[⟨ep.Name, ep.type, ep.Args⟩], 1⟩ : schema.GraphQLPath) ∈
        s.FindPaths entryPoints targetType := by
  intro s eps tt ep hmem hty
  unfold traverser.Sequential.FindPaths traverser.Sequential.FindPathsFuel
  rw [List.mem_flatMap]
  exact ⟨ep, hmem, by simp [hty]⟩

/-- Witness for C8 at a concrete enumerator, entry-point list and target. -/
theorem c8_root_match_one_step_path_witness :
    (⟨[⟨"t", "B", []⟩], 1⟩ : schema.GraphQLPath) ∈
      wSeq.FindPaths wEps "B" :=
  c8_root_match_one_step_path wSeq wEps "B" ⟨"t", "B", []⟩ (by decide) rfl

/-- C5 counterexample: a mutation whose first return field has a
non-scalar kind but an empty type string — the code falls back to the
mutation's own declared type, while the claim's policy selects the (empty)
type of that first non-scalar return field. -/
theorem c5_mutation_target_counterexample :
    (legacy.convertGitHubMutation mCex).Target ≠ claimMutationTarget mCex := by
  decide

/-- C5 amended: the converter's target equals the claim's policy extended
with the empty-string fallbacks: first non-scalar/enum return field's
type; if none qualifies or the selected string is empty, the first return
field's type; if the chosen string is empty after stripping modifiers (in
particular when returnFields is empty), the mutation's own declared
type. -/
theorem c5_mutation_target_amended :
    ∀ m : github.FieldDef,
      (legacy.convertGitHubMutation m).Target = amendedMutationTarget m := by
  intro m
  unfold legacy.convertGitHubMutation amendedMutationTarget
  rfl

/-- C6 counterexample: a decoded introspection document with a present but
empty types list is reported as Introspection by the code, while the
claim's detection rule (non-empty types list) reports a format-recognition
error. -/
theorem c6_format_detection_counterexample :
    legacy.parseSchema (some introCex) none ≠ claimParseSchema (some introCex) none := by
  decide

/-- C6 amended: format detection equals the claim's rule with the
Introspection criterion weakened from "non-empty types list" to "types
list present (non-null, possibly empty)". -/
theorem c6_format_detection_amended :
    ∀ (introRes : Option legacy.IntrospectionDoc) (ghRes : Option github.Format),
      legacy.parseSchema introRes ghRes = amendedParseSchema introRes ghRes := by
  intro introRes ghRes
  cases introRes with
  | none =>
    cases ghRes with
    | none => rfl
    | some gh => simp [legacy.parseSchema, amendedParseSchema]
  | some intro =>
    cases ghRes with
    | none =>
      by_cases hts : intro.Types.isSome <;>
        simp [legacy.parseSchema, amendedParseSchema, hts]
    | some gh =>
      by_cases hts : intro.Types.isSome <;>
        simp [legacy.parseSchema, amendedParseSchema, hts]

/-- C7 counterexample: in the current CLI a completed search with zero
paths exits with the same code (0) as a successful run with paths — not
with a distinct non-zero "not found" code. -/
theorem c7_exit_code_counterexample :
    legacy.mainExitCode true true 1 0 = 0 ∧
    legacy.mainExitCode true true 1 3 = 0 := by
  decide

/-- C7 amended: with the schema loaded and the target present, any run
with at least one path exits 0 in both CLIs; a zero-path run exits 0
(warning only) in the current CLI, while the legacy CLI exits the distinct
"not found" code 2, different from its hard-failure code 1 (shown here as
the parse-failure exit). -/
theorem c7_exit_code_amended :
    ∀ pathCount : Nat,
      legacy.mainExitCode true true 1 (pathCount + 1) = 0 ∧
      legacy.legacyMainExitCode true true (pathCount + 1) = 0 ∧
      legacy.mainExitCode true true 1 0 = 0 ∧
      legacy.legacyMainExitCode true true 0 = 2 ∧
      legacy.legacyMainExitCode false true (pathCount + 1) = 1 := by
  intro pc
  simp [legacy.mainExitCode, legacy.legacyMainExitCode]

/-- Below the fan-out threshold the parallel job processor computes exactly
the sequential dfs: whenever `maxDepth ≤ 5`, the guard `depth < 5` of the
in-process recursion is implied by the `depth < maxDepth` guard both
functions share. -/
theorem processJob_eq_dfs (sch : schema.Schema) (md : Nat) (w : Int)
    (tt : String) (h5 : md ≤ 5) :
    ∀ (fuel : Nat) (ct : String) (path : List schema.PathSegment)
      (visited : List String) (depth : Nat),
      traverser.Parallel.processJob ⟨sch, md, w⟩ tt fuel ⟨ct, path, visited, depth⟩ =
        traverser.Sequential.dfs ⟨sch, md⟩ tt fuel ct path visited depth := by
  intro fuel
  induction fuel with
  | zero => intro ct path visited depth; rfl
  | succ f ih =>
    intro ct path visited depth
    by_cases hd : md ≤ depth
    · simp [traverser.Parallel.processJob, traverser.Sequential.dfs, hd]
    · simp only [traverser.Parallel.processJob, traverser.Sequential.dfs,
        if_neg hd]
      cases hty : schema.Schema.GetType sch ct with
      | none => rfl
      | some typ =>
        refine List.flatMap_congr fun field hf => ?_
        by_cases hv : field.type ∈ visited
        · simp [hv]
        · by_cases htgt : field.type = tt
          · simp [hv, htgt]
          · have hlt : depth < 5 := by omega
            simp [hv, htgt, hlt]
            exact ih field.type _ (field.type :: visited) (depth + 1)

/-- The INTENDED claimed equivalence: under the value-semantics reading of
sequential.go's `append` (each recorded path an immutable snapshot — the
behaviour parallel.go's explicit copy realizes), the sequential and
parallel enumerators agree as sets for maxDepth at most the fan-out
threshold 5 and any positive worker count.  This supports the claim C1
code-bug record: the claimed property holds of the intended semantics and
fails on the real code only through the slice-aliasing slip exhibited by
`c1_slice_aliasing_loses_path`. -/
theorem value_semantics_parallel_matches_sequential :
    ∀ (sch : schema.Schema) (maxDepth : Nat) (workers : Int)
      (entryPoints : List schema.EntryPoint) (targetType : String),
      0 < workers → maxDepth ≤ 5 →
      ∀ p : schema.GraphQLPath,
        (p ∈ traverser.Sequential.FindPaths ⟨sch, maxDepth⟩ entryPoints targetType ↔
          p ∈ traverser.Parallel.FindPaths
              (traverser.NewParallel sch maxDepth workers) entryPoints targetType) := by
  intro sch md w eps tt hw h5 p
  have hnp : traverser.NewParallel sch md w = ⟨sch, md, w⟩ := by
    unfold traverser.NewParallel
    rw [if_neg (by omega)]
  rw [hnp]
  unfold traverser.Sequential.FindPaths traverser.Sequential.FindPathsFuel
    traverser.Parallel.FindPaths
  simp only [processJob_eq_dfs sch md w tt h5]
  simp only [List.mem_flatMap, List.mem_append]
  constructor
  · rintro ⟨ep, hep, h | h⟩
    · exact Or.inl ⟨ep, hep, h⟩
    · exact Or.inr ⟨ep, hep, h⟩
  · rintro (⟨ep, hep, h⟩ | ⟨ep, hep, h⟩)
    · exact ⟨ep, hep, Or.inl h⟩
    · exact ⟨ep, hep, Or.inr h⟩

/-- C1: the claimed sequential/parallel set equality below the fan-out
threshold is broken by a slip in sequential.go, evaluated here at the
failing input (maxDepth 4 ≤ 5, chain A→B→C with two target-typed fields
on C): the capacity-aware sequential model — Go append reusing the
len-3/cap-4 backing array at depth 3 — returns the corrupted `t2` path
twice and loses the `t1` path that the copying parallel enumerator (and
the intended value semantics of the same sequential code) both return, so
the two outputs differ as sets. -/
theorem c1_slice_aliasing_loses_path :
    lostPath ∈
        traverser.Parallel.FindPaths (traverser.NewParallel aliasSchema 4 2)
          aliasEps "T" ∧
    lostPath ∈ traverser.Sequential.FindPaths ⟨aliasSchema, 4⟩ aliasEps "T" ∧
    ¬ lostPath ∈ traverser.Sequential.FindPathsGo ⟨aliasSchema, 4⟩ aliasEps "T" ∧
    traverser.Sequential.FindPathsGo ⟨aliasSchema, 4⟩ aliasEps "T" =
      [corruptedPath, corruptedPath] := by
  decide

/-- Depth bookkeeping of dfs: starting from a path whose length equals the
current depth, every recorded path has its Depth equal to its number of
segments, and that Depth never exceeds maxDepth. -/
theorem dfs_depth_eq_len (s : traverser.Sequential) (tt : String) :
    ∀ (fuel : Nat) (ct : String) (path : List schema.PathSegment)
      (visited : List String) (depth : Nat),
      path.length = depth →
      ∀ p ∈ s.dfs tt fuel ct path visited depth,
        p.Depth = p.Segments.length ∧ p.Depth ≤ s.maxDepth := by
  intro fuel
  induction fuel with
  | zero =>
    intro ct path visited depth _ p hp
    simp [traverser.Sequential.dfs] at hp
  | succ f ih =>
    intro ct path visited depth hlen p hp
    by_cases hd : s.maxDepth ≤ depth
    · rw [dfs_stop s tt _ ct path visited depth hd] at hp
      simp at hp
    · simp only [traverser.Sequential.dfs, if_neg hd] at hp
      cases hty : s.schema.GetType ct with
      | none => rw [hty] at hp; simp at hp
      | some typ =>
        rw [hty] at hp
        rw [List.mem_flatMap] at hp
        obtain ⟨field, hf, hp⟩ := hp
        by_cases hv : field.type ∈ visited
        · simp [hv] at hp
        · by_cases htgt : field.type = tt
          · simp [hv, htgt] at hp
            obtain ⟨-, hp⟩ := hp
            subst hp
            refine ⟨by simp [hlen], by show depth + 1 ≤ s.maxDepth; omega⟩
          · simp [hv, htgt] at hp
            exact ih field.type _ (field.type :: visited) (depth + 1)
              (by simp [hlen]) p hp

/-- C2 counterexample: with `maxDepth = 0` and an entry point whose own
type is the target, FindPaths still returns the one-step root path of
depth 1, which exceeds maxDepth. -/
theorem c2_depth_counterexample :
    ∃ p, p ∈ cexSeq.FindPaths cexEps "T" ∧ cexSeq.maxDepth < p.Depth :=
  ⟨⟨[⟨"a", "T", []⟩], 1⟩, by decide, by decide⟩

/-- C2 amended: for every Graph, target and maxDepth, every Path returned
by the sequential FindPaths has its Depth equal to its number of
segments; and whenever maxDepth ≥ 1, that Depth is also at most maxDepth.
(At maxDepth = 0 the depth-1 root self-match is still emitted, so only
the bound needs maxDepth ≥ 1; the Depth-equals-segment-count half holds
unconditionally.) -/
theorem c2_depth_equals_segments_amended :
    ∀ (s : traverser.Sequential) (entryPoints : List schema.EntryPoint)
      (targetType : String),
      ∀ p ∈ s.FindPaths entryPoints targetType,
        p.Depth = p.Segments.length ∧
          (1 ≤ s.maxDepth → p.Depth ≤ s.maxDepth) := by
  intro s eps tt p hp
  unfold traverser.Sequential.FindPaths traverser.Sequential.FindPathsFuel at hp
  rw [List.mem_flatMap] at hp
  obtain ⟨ep, hep, hp⟩ := hp
  rw [List.mem_append] at hp
  rcases hp with hp | hp
  · by_cases hty : ep.type = tt
    · simp [hty] at hp
      subst hp
      exact ⟨rfl, fun h1 => h1⟩
    · simp [hty] at hp
  · obtain ⟨hlen, hle⟩ := dfs_depth_eq_len s tt s.maxDepth ep.type
      [⟨ep.Name, ep.type, ep.Args⟩] [ep.type] 1 rfl p hp
    exact ⟨hlen, fun _ => hle⟩

/-- Witness for C2 (amended) at a concrete enumerator and path,
discharging both the membership hypothesis and the inner maxDepth ≥ 1
hypothesis. -/
theorem c2_depth_equals_segments_amended_witness :
    wPath.Depth = wPath.Segments.length ∧ wPath.Depth ≤ wSeq.maxDepth :=
  ⟨(c2_depth_equals_segments_amended wSeq wEps "B" wPath (by decide)).1,
   (c2_depth_equals_segments_amended wSeq wEps "B" wPath (by decide)).2 (by decide)⟩

/-- C4: normalizing the GitHub-style document with queries
`[repo : Repository, args [id : ID!]]` and objects `[Repository]` and
searching for target `Repository` yields exactly one Path; its single step
carries the argument `id` with the declared type string `"ID!"` preserved
(original modifier syntax) and `required = true`. -/
theorem c4_github_example_single_path :
    traverser.Sequential.FindPaths ⟨schema.loadGitHub ghDoc false, 15⟩
        ((schema.loadGitHub ghDoc false).GetEntryPoints false) "Repository" =
      [⟨[⟨"repo", "Repository", [⟨"id", "ID!", true, none⟩]⟩], 1⟩] := by
  decide

/-- C9: applying the query generator to the single-step Path of the GitHub
example produces a query text containing a variable reference for the `id`
argument, whose variable name joins the owning field's name `repo` and the
argument's name `id`, and an example-values map binding that variable name
to the placeholder identifier string `"123"`. -/
theorem c9_generator_variable_reference :
    repoPath ∈
      traverser.Sequential.FindPaths ⟨schema.loadGitHub ghDoc false, 15⟩
        ((schema.loadGitHub ghDoc false).GetEntryPoints false) "Repository" ∧
    generator.stringsContains
        (generator.Generator.generateOne ⟨schema.loadGitHub ghDoc false⟩ repoPath 1).Query
        ("id: $" ++ ("repo" ++ "_" ++ "id")) = true ∧
    (generator.Generator.generateOne ⟨schema.loadGitHub ghDoc false⟩ repoPath 1).Variables.lookup
        ("repo" ++ "_" ++ "id") = some (generator.Value.str "123") := by
  decide
